import Mathlib

/-
Verification of the core of the `raytracer-in-one-weekend-rs` repository.

The numeric code of the repository works on IEEE floats (`f32` in the current
`vec3.rs`/`ray.rs`, `f64` in the `model.rs`/`material.rs`/`camera.rs`
revision).  The embedding models every float as a real number, so the
theorems below describe the exact-arithmetic behaviour of the algorithms
(control flow, branch structure and returned formulas), not rounding.
Each definition mirrors one function of the source; comments name the file
it was translated from.
-/

noncomputable section

/-- Mirrors `Vec3` from `src/vec3.rs`: a vector with three float components. -/
structure Vec3 where
  x : ℝ
  y : ℝ
  z : ℝ

namespace Vec3

/-- Mirrors `Vec3::ZERO`. -/
def ZERO : Vec3 := ⟨0, 0, 0⟩

/-- Mirrors `Vec3::ONE`. -/
def ONE : Vec3 := ⟨1, 1, 1⟩

/-- Mirrors `Vec3::ID` of the `f64` revision of the vector type: the identity
color `(1,1,1)` used as the dielectric attenuation. -/
def ID : Vec3 := ⟨1, 1, 1⟩

/-- Mirrors `impl Add for Vec3`. -/
def add (a b : Vec3) : Vec3 := ⟨a.x + b.x, a.y + b.y, a.z + b.z⟩

/-- Mirrors `impl Sub for Vec3`. -/
def sub (a b : Vec3) : Vec3 := ⟨a.x - b.x, a.y - b.y, a.z - b.z⟩

/-- Mirrors `impl Mul for Vec3` (componentwise product). -/
def cmul (a b : Vec3) : Vec3 := ⟨a.x * b.x, a.y * b.y, a.z * b.z⟩

/-- Mirrors `impl Mul<f32> for Vec3` (vector times scalar). -/
def smulR (a : Vec3) (k : ℝ) : Vec3 := ⟨a.x * k, a.y * k, a.z * k⟩

/-- Mirrors `impl Mul<Vec3> for f32` (scalar times vector). -/
def smulL (k : ℝ) (a : Vec3) : Vec3 := ⟨k * a.x, k * a.y, k * a.z⟩

/-- Mirrors `impl Div<f32> for Vec3` (vector divided by scalar). -/
def divR (a : Vec3) (k : ℝ) : Vec3 := ⟨a.x / k, a.y / k, a.z / k⟩

/-- Mirrors `impl Neg for Vec3`. -/
def neg (a : Vec3) : Vec3 := ⟨-a.x, -a.y, -a.z⟩

instance : Add Vec3 := ⟨Vec3.add⟩
instance : Sub Vec3 := ⟨Vec3.sub⟩
instance : Mul Vec3 := ⟨Vec3.cmul⟩
instance : HMul Vec3 ℝ Vec3 := ⟨Vec3.smulR⟩
instance : HMul ℝ Vec3 Vec3 := ⟨Vec3.smulL⟩
instance : HDiv Vec3 ℝ Vec3 := ⟨Vec3.divR⟩
instance : Neg Vec3 := ⟨Vec3.neg⟩

@[simp] theorem add_x (a b : Vec3) : (a + b).x = a.x + b.x := rfl
@[simp] theorem add_y (a b : Vec3) : (a + b).y = a.y + b.y := rfl
@[simp] theorem add_z (a b : Vec3) : (a + b).z = a.z + b.z := rfl
@[simp] theorem sub_x (a b : Vec3) : (a - b).x = a.x - b.x := rfl
@[simp] theorem sub_y (a b : Vec3) : (a - b).y = a.y - b.y := rfl
@[simp] theorem sub_z (a b : Vec3) : (a - b).z = a.z - b.z := rfl
@[simp] theorem cmul_x (a b : Vec3) : (a * b).x = a.x * b.x := rfl
@[simp] theorem cmul_y (a b : Vec3) : (a * b).y = a.y * b.y := rfl
@[simp] theorem cmul_z (a b : Vec3) : (a * b).z = a.z * b.z := rfl
@[simp] theorem smulR_x (a : Vec3) (k : ℝ) : (a * k).x = a.x * k := rfl
@[simp] theorem smulR_y (a : Vec3) (k : ℝ) : (a * k).y = a.y * k := rfl
@[simp] theorem smulR_z (a : Vec3) (k : ℝ) : (a * k).z = a.z * k := rfl
@[simp] theorem smulL_x (k : ℝ) (a : Vec3) : (k * a).x = k * a.x := rfl
@[simp] theorem smulL_y (k : ℝ) (a : Vec3) : (k * a).y = k * a.y := rfl
@[simp] theorem smulL_z (k : ℝ) (a : Vec3) : (k * a).z = k * a.z := rfl
@[simp] theorem divR_x (a : Vec3) (k : ℝ) : (a / k).x = a.x / k := rfl
@[simp] theorem divR_y (a : Vec3) (k : ℝ) : (a / k).y = a.y / k := rfl
@[simp] theorem divR_z (a : Vec3) (k : ℝ) : (a / k).z = a.z / k := rfl
@[simp] theorem neg_x (a : Vec3) : (-a).x = -a.x := rfl
@[simp] theorem neg_y (a : Vec3) : (-a).y = -a.y := rfl
@[simp] theorem neg_z (a : Vec3) : (-a).z = -a.z := rfl

theorem eq_iff_components (a b : Vec3) : a = b ↔ a.x = b.x ∧ a.y = b.y ∧ a.z = b.z := by
  cases a
  cases b
  simp

/-- Mirrors `Vec3::dot` from `src/vec3.rs`. -/
def dot (a b : Vec3) : ℝ := a.x * b.x + a.y * b.y + a.z * b.z

/-- Mirrors `Vec3::cross` from `src/vec3.rs`. -/
def cross (a b : Vec3) : Vec3 :=
  ⟨a.y * b.z - a.z * b.y, a.z * b.x - a.x * b.z, a.x * b.y - a.y * b.x⟩

/-- Mirrors `Vec3::mag_sq` from `src/vec3.rs`. -/
def mag_sq (a : Vec3) : ℝ := a.dot a

/-- Mirrors `Vec3::mag` from `src/vec3.rs` (`length` in the `f64` revision). -/
def mag (a : Vec3) : ℝ := Real.sqrt a.mag_sq

/-- Mirrors `.unit()` of the `f64` vector revision (`normalize` in `src/vec3.rs`):
scale so that the magnitude is one. -/
def unit (a : Vec3) : Vec3 := a / a.mag

/-- Mirrors `Vec3::reflect` from `src/vec3.rs`, identical to the free function
`reflect` in `src/material.rs`: `v - v.dot(normal) * normal * 2.0`. -/
def reflect (v normal : Vec3) : Vec3 := v - v.dot normal * normal * (2 : ℝ)

theorem dot_self_nonneg (a : Vec3) : 0 ≤ a.dot a := by
  have hx : 0 ≤ a.x * a.x := mul_self_nonneg _
  have hy : 0 ≤ a.y * a.y := mul_self_nonneg _
  have hz : 0 ≤ a.z * a.z := mul_self_nonneg _
  simpa [dot] using add_nonneg (add_nonneg hx hy) hz

end Vec3

/-- Mirrors `Ray` from `src/ray.rs`: origin and direction. -/
structure Ray where
  origin : Vec3
  direction : Vec3

namespace Ray

/-- Mirrors `Ray::ZERO` (`Ray::zero()` in `src/ray.rs`). -/
def ZERO : Ray := ⟨Vec3.ZERO, Vec3.ZERO⟩

/-- Mirrors `Ray::point_at_parameter` from `src/ray.rs`:
`origin + direction * parameter`. -/
def point_at_parameter (r : Ray) (parameter : ℝ) : Vec3 :=
  r.origin + r.direction * parameter

theorem eq_iff_fields (a b : Ray) : a = b ↔ a.origin = b.origin ∧ a.direction = b.direction := by
  cases a
  cases b
  simp

end Ray

instance : DecidableEq Vec3 := fun a b => decidable_of_iff _ (Vec3.eq_iff_components a b).symm

instance : DecidableEq Ray := fun a b => decidable_of_iff _ (Ray.eq_iff_fields a b).symm

/-- Mirrors `f64::cbrt` on the inputs of the sampler: real cube root (the sampler only
applies it to draws from `[0,1)`, where it agrees with `x ^ (1/3)`). -/
def cbrt (a : ℝ) : ℝ := if a < 0 then -((-a) ^ ((1 : ℝ) / 3)) else a ^ ((1 : ℝ) / 3)

/-- Mirrors `random_in_unit_sphere` from `src/material.rs`, with the three calls to
`rand::random` made explicit arguments `u v w`: direct spherical-coordinate
construction with cube-root radius. -/
def random_in_unit_sphere (u v w : ℝ) : Vec3 :=
  let theta := u * 2 * Real.pi
  let phi := Real.arccos (2 * v - 1)
  let r := cbrt w
  let sin_theta := Real.sin theta
  let cos_theta := Real.cos theta
  let sin_phi := Real.sin phi
  let cos_phi := Real.cos phi
  ⟨r * sin_phi * cos_theta, r * sin_phi * sin_theta, r * cos_phi⟩

/-- Mirrors `impl Distribution<Vec3> for Standard` from `src/vec3.rs`, with the three
`rng.gen` draws made explicit arguments: the same spherical-coordinate
construction as `random_in_unit_sphere` in `src/material.rs`. -/
def standardSampleVec3 (u v w : ℝ) : Vec3 :=
  let theta := u * 2 * Real.pi
  let phi := Real.arccos (2 * v - 1)
  let r := cbrt w
  let sin_theta := Real.sin theta
  let cos_theta := Real.cos theta
  let sin_phi := Real.sin phi
  let cos_phi := Real.cos phi
  ⟨r * sin_phi * cos_theta, r * sin_phi * sin_theta, r * cos_phi⟩

/-- Modelled from the spec: §4.1 describes uniform sampling inside the unit
sphere by rejection: "repeatedly draw a point with each component uniform in
[-1,1] until its squared length < 1".  No such routine exists under `src/`;
this definition follows the wording of the spec so the sampler of the source can be
compared against it.  Attempt `i` uses draws `3i, 3i+1, 3i+2` of the stream,
each mapped from `[0,1)` to `[-1,1)` by `d ↦ 2d - 1`; `fuel` bounds the
number of attempts (the loop of the spec is unbounded). -/
def rejectionLoop (stream : ℕ → ℝ) : ℕ → ℕ → Option Vec3
  | _, 0 => none
  | i, fuel + 1 =>
    let p : Vec3 := ⟨2 * stream (3 * i) - 1, 2 * stream (3 * i + 1) - 1,
      2 * stream (3 * i + 2) - 1⟩
    if p.mag_sq < 1 then some p else rejectionLoop stream (i + 1) fuel

/-- Modelled from the spec (see `rejectionLoop`): the
rejection-sampling routine of the spec, starting at attempt 0. -/
def rejectionSampleSphere (stream : ℕ → ℝ) (fuel : ℕ) : Option Vec3 :=
  rejectionLoop stream 0 fuel

/-- Mirrors `Material` from `src/material.rs`: closed variant set.  The `Combined`
variant is modelled from the spec: it is constructed in `src/main.rs`
(`Material::Combined { scatterer, emitter }`) but the revision of
`material.rs` present under `src/` predates it and its enum lacks the
variant; §3 and §4.5 of the spec describe it as holding shared references
to a scatterer material and an emitter material.  The shared `&Material`
references are modelled by direct nesting. -/
inductive Material where
  | lambertian (albedo : Vec3)
  | metal (albedo : Vec3) (fuzz : ℝ)
  | dielectric (ref_idx : ℝ)
  | diffuseLight (emittance : Vec3)
  | combined (scatterer : Material) (emitter : Material)

/-- Mirrors `Material::metal` from `src/material.rs` (via `Metal::new`): the fuzz
parameter is silently clamped to `1.0` if larger. -/
def Material.mkMetal (albedo : Vec3) (fuzz : ℝ) : Material :=
  .metal albedo (if fuzz < 1 then fuzz else 1)

/-- Mirrors `Hit` from `src/model.rs` (`HitRecord` in `src/hittable.rs`). -/
structure Hit where
  parameter : ℝ
  point : Vec3
  normal : Vec3
  material : Material

/-- Mirrors `Scatter` from `src/material.rs`. -/
structure Scatter where
  scattered : Ray
  attenuation : Vec3

/-- One iteration of ambient randomness.  The source draws from a
global RNG: `random_in_unit_sphere` consumes three uniform draws `u v w`,
and `Dielectric::scatter` consumes one draw `q` for the reflect/refract
choice.  Grouping the draws of a single scatter call into one record makes
"for every sequence of random draws" a quantifier over `ℤ → Draws`. -/
structure Draws where
  u : ℝ
  v : ℝ
  w : ℝ
  q : ℝ

/-- Mirrors `Dielectric::schlick` from `src/material.rs`. -/
def schlick (cosine ref_idx : ℝ) : ℝ :=
  let r0 := (1 - ref_idx) / (1 + ref_idx)
  let r0 := r0 * r0
  r0 + (1 - r0) * (1 - cosine) ^ (5 : ℕ)

/-- Mirrors `Dielectric::refract` from `src/material.rs`. -/
def Dielectric.refract (v normal : Vec3) (ni_over_nt : ℝ) : Option Vec3 :=
  let uv := v.unit
  let dt := uv.dot normal
  let discriminant := 1 - ni_over_nt * ni_over_nt * (1 - dt * dt)
  if 0 < discriminant then
    some ((uv - normal * dt) * ni_over_nt - normal * Real.sqrt discriminant)
  else
    none

/-- The entering/exiting branch at the top of `Dielectric::scatter` in
`src/material.rs`: returns `(outward_normal, ni_over_nt, cosine)`. -/
def dielectricParams (ref_idx : ℝ) (r_in : Ray) (rec : Hit) : Vec3 × ℝ × ℝ :=
  if 0 < r_in.direction.dot rec.normal then
    let c := r_in.direction.dot rec.normal / r_in.direction.mag
    (-rec.normal, ref_idx, Real.sqrt (1 - ref_idx * ref_idx * (1 - c * c)))
  else
    (rec.normal, 1 / ref_idx, -(r_in.direction.dot rec.normal) / r_in.direction.mag)

/-- Mirrors `Material::scatter` from `src/material.rs`, dispatching to
`Lambertian::scatter`, `Metal::scatter` and `Dielectric::scatter`; the
catch-all arm (`DiffuseLight`) returns `None` (absorbed).  The `combined`
arm is modelled from the spec (§4.5): `Combined` "delegates scattering to
its `scatterer` reference". -/
def Material.scatter : Material → Ray → Hit → Draws → Option Scatter
  | .lambertian albedo, _, rec, d =>
    let target := rec.point + rec.normal + random_in_unit_sphere d.u d.v d.w
    some ⟨Ray.mk rec.point (target - rec.point), albedo⟩
  | .metal albedo fuzz, r_in, rec, d =>
    let target := Vec3.reflect r_in.direction.unit rec.normal
    let scattered := Ray.mk rec.point (target + random_in_unit_sphere d.u d.v d.w * fuzz)
    if 0 < scattered.direction.dot rec.normal then
      some ⟨scattered, albedo⟩
    else
      none
  | .dielectric ref_idx, r_in, rec, d =>
    let p := dielectricParams ref_idx r_in rec
    let refract_result := Dielectric.refract r_in.direction p.1 p.2.1
    let reflect_probability := if refract_result.isSome then schlick p.2.2 ref_idx else 1
    some ⟨if d.q < reflect_probability then
        Ray.mk rec.point (Vec3.reflect r_in.direction rec.normal)
      else
        Ray.mk rec.point (refract_result.getD Vec3.ZERO), Vec3.ID⟩
  | .diffuseLight _, _, _, _ => none
  | .combined s _, r_in, rec, d => s.scatter r_in rec d

/-- Mirrors `Material::emit` from `src/material.rs`: `DiffuseLight` returns its
emittance, the catch-all arm returns `Vec3::ZERO`.  The `combined` arm is
modelled from the spec (§4.5): `Combined` "delegates ... emission to its
`emitter` reference". -/
def Material.emit : Material → Hit → Vec3
  | .diffuseLight emittance, _ => emittance
  | .combined _ e, rec => e.emit rec
  | .lambertian _, _ => Vec3.ZERO
  | .metal _ _, _ => Vec3.ZERO
  | .dielectric _, _ => Vec3.ZERO

/-- Mirrors `Model` from `src/model.rs` (`Hittable` in `src/hittable.rs`): a sphere
or a list of models.  The sphere fields are those of `Sphere`. -/
inductive Model where
  | sphere (center : Vec3) (radius : ℝ) (material : Material)
  | list (children : List Model)

/-- Mirrors `Sphere::hit` from `src/model.rs` (identical in `src/sphere.rs`), with
the two early returns written as nested conditionals. -/
def sphereHit (center : Vec3) (radius : ℝ) (material : Material)
    (ray : Ray) (t_min t_max : ℝ) : Option Hit :=
  let oc := ray.origin - center
  let a := ray.direction.dot ray.direction
  let b := oc.dot ray.direction
  let c := oc.dot oc - radius * radius
  let discriminant := b * b - a * c
  if 0 < discriminant then
    let parameter := (-b - Real.sqrt discriminant) / a
    if t_min < parameter ∧ parameter < t_max then
      let point := ray.point_at_parameter parameter
      some ⟨parameter, point, (point - center) / radius, material⟩
    else
      let parameter := (-b + Real.sqrt discriminant) / a
      if t_min < parameter ∧ parameter < t_max then
        let point := ray.point_at_parameter parameter
        some ⟨parameter, point, (point - center) / radius, material⟩
      else
        none
  else
    none

mutual

/-- Mirrors `Model::hit` from `src/model.rs` (`Hittable::hit` in
`src/hittable.rs`). -/
def Model.hit : Model → Ray → ℝ → ℝ → Option Hit
  | .sphere center radius material, ray, t_min, t_max =>
    sphereHit center radius material ray t_min t_max
  | .list l, ray, t_min, t_max => hitLoop l ray t_min t_max none

/-- The `for hittable in list` loop inside the `Model::List` arm of
`Model::hit`: `closest` is `closest_so_far`, `acc` is `hit_record`. -/
def hitLoop : List Model → Ray → ℝ → ℝ → Option Hit → Option Hit
  | [], _, _, _, acc => acc
  | m :: rest, ray, t_min, closest, acc =>
    match Model.hit m ray t_min closest with
    | some h => hitLoop rest ray t_min h.parameter (some h)
    | none => hitLoop rest ray t_min closest acc

end

/-- The lower bound `0.00001` of the intersection range in `color`
(`src/main.rs`), as an exact rational. -/
def EPS : ℝ := 1 / 100000

/-- The value `std::f32::MAX`, the upper bound of the intersection range in `color`
(`src/main.rs`): `(2 - 2 ^ -23) * 2 ^ 127`. -/
def F32_MAX : ℝ := 340282346638528859811704183484516925440

/-- The `while let` loop of `fn color` in `src/main.rs`, with the loop state
(`ray`, `factor`, `emit`, `bounces`) explicit and the ambient randomness
passed as a per-bounce stream `draws`.  The second component counts the
number of scene intersection tests (`world.hit` evaluations) performed.
The revision of `material.rs` under `src/` returns `Option<Scatter>` while
`main.rs` destructures a plain `Scatter` whose absorbed case is
`scattered == Ray::ZERO`; both absorbed encodings land in the same branch,
which per the spec (§4.6) returns `throughput * material.emit(hit)`. -/
def colorLoop (world : Model) (draws : ℤ → Draws) (max_bounce : ℤ)
    (ray : Ray) (factor emit : Vec3) (bounces : ℤ) : Vec3 × ℕ :=
  match Model.hit world ray EPS F32_MAX with
  | none => (factor * (Vec3.ZERO + emit), 1)
  | some rec =>
    if max_bounce ≤ bounces then
      (factor * (Vec3.ZERO + emit), 1)
    else
      match rec.material.scatter ray rec (draws bounces) with
      | none => (factor * rec.material.emit rec, 1)
      | some s =>
        if s.scattered = Ray.ZERO ∨ s.attenuation = Vec3.ZERO then
          (factor * rec.material.emit rec, 1)
        else
          let p := colorLoop world draws max_bounce s.scattered (factor * s.attenuation)
            (emit + rec.material.emit rec) (bounces + 1)
          (p.1, p.2 + 1)
termination_by (max_bounce - bounces).toNat
decreasing_by
  omega

/-- Mirrors `fn color` from `src/main.rs`: the integrator entry point.  `factor`
starts at `Vec3::ONE`, `emit` at `Vec3::ZERO`, `bounces` at 0; the sky
color is configured to `Vec3::ZERO`. -/
def color (ray : Ray) (world : Model) (max_bounce : ℤ) (draws : ℤ → Draws) : Vec3 :=
  (colorLoop world draws max_bounce ray Vec3.ONE Vec3.ZERO 0).1

/-- Mirrors `Camera` from `src/camera.rs`. -/
structure Camera where
  top_left_corner : Vec3
  horizontal : Vec3
  vertical : Vec3
  origin : Vec3
  u : Vec3
  v : Vec3
  w : Vec3
  lens_radius : ℝ

/-- Mirrors `Camera::new` from `src/camera.rs`. -/
def Camera.new (look_from look_at v_up : Vec3)
    (v_fov aspect aperture focus_dist : ℝ) : Camera :=
  let theta := v_fov * Real.pi / 180
  let half_height := Real.tan (theta / 2)
  let half_width := aspect * half_height
  let w := (look_from - look_at).unit
  let u := (v_up.cross w).unit
  let v := w.cross u
  { lens_radius := aperture / 2
    origin := look_from
    w := w
    u := u
    v := v
    top_left_corner := look_from - u * half_width * focus_dist +
      v * half_height * focus_dist - w * focus_dist
    horizontal := u * (2 : ℝ) * half_width * focus_dist
    vertical := v * (2 : ℝ) * half_height * focus_dist }

/-- Mirrors `Camera::random_in_unit_disk` from `src/camera.rs`, with the two
`rand::random` draws made explicit arguments: polar construction. -/
def random_in_unit_disk (a b : ℝ) : Vec3 :=
  let theta := a * 2 * Real.pi
  let r := Real.sqrt b
  ⟨r * Real.cos theta, r * Real.sin theta, 0⟩

/-- Mirrors `Camera::get_ray` from `src/camera.rs`, with the two random draws of the lens sample made explicit arguments `a b`. -/
def Camera.get_ray (c : Camera) (s t : ℝ) (a b : ℝ) : Ray :=
  let rd := random_in_unit_disk a b * c.lens_radius
  let offset := c.u * rd.x + c.v * rd.y
  Ray.mk (c.origin + offset)
    (c.top_left_corner + s * c.horizontal - t * c.vertical - c.origin - offset)

/- ## Helper facts used for concrete evaluations -/

theorem sqrt_four : Real.sqrt 4 = 2 := by
  rw [show (4 : ℝ) = 2 ^ 2 by norm_num, Real.sqrt_sq (by norm_num : (0 : ℝ) ≤ 2)]

theorem sqrt_twentyfive : Real.sqrt 25 = 5 := by
  rw [show (25 : ℝ) = 5 ^ 2 by norm_num, Real.sqrt_sq (by norm_num : (0 : ℝ) ≤ 5)]

theorem cbrt_zero : cbrt 0 = 0 := by
  unfold cbrt
  rw [if_neg (lt_irrefl 0)]
  exact Real.zero_rpow (by norm_num)

theorem cbrt_half_pos : 0 < cbrt (1 / 2) := by
  unfold cbrt
  rw [if_neg (by norm_num)]
  exact Real.rpow_pos_of_pos (by norm_num) _

theorem sample_zero_draws : random_in_unit_sphere 0 0 0 = Vec3.ZERO := by
  simp [random_in_unit_sphere, cbrt_zero, Vec3.ZERO]

/- ## Claims -/

/-- Claim C8: the material set contains a `Combined` variant holding
references to a scatterer material and an emitter material; its scatter
outcome equals that of the scatterer and its emission equals that of the emitter
(the variant itself is modelled from the spec, see `Material`). -/
theorem C8_combined_delegates (s e : Material) (r_in : Ray) (rec : Hit) (d : Draws) :
    (Material.combined s e).scatter r_in rec d = s.scatter r_in rec d ∧
      (Material.combined s e).emit rec = e.emit rec :=
  ⟨rfl, rfl⟩

/-- Claim C9: with `aperture = 0` (hence `lens_radius = 0`), `get_ray` does
not depend on the random lens sample: any two draws produce the identical
ray, whose origin is `look_from` and whose direction points from
`look_from` to the viewport location — a pinhole camera. -/
theorem C9_pinhole (look_from look_at v_up : Vec3)
    (v_fov aspect focus_dist s t a1 b1 a2 b2 : ℝ) :
    (Camera.new look_from look_at v_up v_fov aspect 0 focus_dist).get_ray s t a1 b1 =
      (Camera.new look_from look_at v_up v_fov aspect 0 focus_dist).get_ray s t a2 b2 ∧
    ((Camera.new look_from look_at v_up v_fov aspect 0 focus_dist).get_ray s t a1 b1).origin =
      look_from ∧
    ((Camera.new look_from look_at v_up v_fov aspect 0 focus_dist).get_ray s t a1 b1).direction =
      (Camera.new look_from look_at v_up v_fov aspect 0 focus_dist).top_left_corner +
        s * (Camera.new look_from look_at v_up v_fov aspect 0 focus_dist).horizontal -
        t * (Camera.new look_from look_at v_up v_fov aspect 0 focus_dist).vertical -
        look_from := by
  refine ⟨?_, ?_, ?_⟩ <;>
    simp [Camera.get_ray, Camera.new, random_in_unit_disk, Ray.eq_iff_fields, Vec3.eq_iff_components]

/-- Claim C7 (amended): a single sampling method is used consistently for
points inside the unit sphere — `random_in_unit_sphere` in
`src/material.rs` and the `Distribution` impl in `src/vec3.rs` compute the
identical direct spherical-coordinate construction with cube-root radius
(which is not the rejection sampling of the spec, see `C7_counterexample`). -/
theorem C7_single_sampling_method (u v w : ℝ) :
    random_in_unit_sphere u v w = standardSampleVec3 u v w := rfl

/-- Claim C7 counterexample: the sampler of the source is not the
rejection sampler of the spec.  On the constant draw stream 1/2, rejection sampling
accepts the first point `(0,0,0)`, while the routine of the source, consuming
its three draws from the same stream, returns a point with first
coordinate `-cbrt(1/2) ≠ 0`. -/
theorem C7_counterexample :
    rejectionSampleSphere (fun _ => 1 / 2) 1 = some ⟨0, 0, 0⟩ ∧
      random_in_unit_sphere (1 / 2) (1 / 2) (1 / 2) ≠ ⟨0, 0, 0⟩ := by
  constructor
  · norm_num [rejectionSampleSphere, rejectionLoop, Vec3.mag_sq, Vec3.dot]
  · intro hEq
    rw [Vec3.eq_iff_components] at hEq
    obtain ⟨hx, -, -⟩ := hEq
    simp only [random_in_unit_sphere] at hx
    rw [show (2 * (1 / 2 : ℝ) - 1) = 0 by norm_num, Real.arccos_zero,
      Real.sin_pi_div_two, show ((1 / 2 : ℝ) * 2 * Real.pi) = Real.pi by ring,
      Real.cos_pi] at hx
    have hpos : 0 < cbrt (1 / 2) := cbrt_half_pos
    nlinarith [hx]

/-- Claim C6 (amended): `Metal::scatter` mirror-reflects the *normalized*
incoming direction about the normal, perturbs it by
`fuzz * random_in_unit_sphere()`, and absorbs exactly when the resulting
dot product of the resulting direction with the hit normal is not positive. -/
theorem C6_amended_metal_scatter (albedo : Vec3) (fuzz : ℝ) (r_in : Ray) (rec : Hit)
    (d : Draws) :
    Material.scatter (.metal albedo fuzz) r_in rec d =
      (if 0 < (Vec3.reflect r_in.direction.unit rec.normal +
            random_in_unit_sphere d.u d.v d.w * fuzz).dot rec.normal then
        some ⟨Ray.mk rec.point (Vec3.reflect r_in.direction.unit rec.normal +
          random_in_unit_sphere d.u d.v d.w * fuzz), albedo⟩
      else none) := rfl

/-- Claim C6 counterexample: for the non-unit incoming direction
`(0,0,-2)` against normal `(0,0,1)` with `fuzz = 0` and zero draws, the
source scatters with direction `(0,0,1)` (reflection of the *normalized*
direction), while the formula of the claim — reflection of the incoming
direction itself plus the fuzz perturbation — gives `(0,0,2)`. -/
theorem C6_counterexample :
    Material.scatter (.metal Vec3.ONE 0) (Ray.mk ⟨0, 0, 6⟩ ⟨0, 0, -2⟩)
        ⟨4, ⟨0, 0, 1⟩, ⟨0, 0, 1⟩, .metal Vec3.ONE 0⟩ ⟨0, 0, 0, 0⟩ =
      some ⟨Ray.mk ⟨0, 0, 1⟩ ⟨0, 0, 1⟩, Vec3.ONE⟩ ∧
    Vec3.reflect ⟨0, 0, -2⟩ ⟨0, 0, 1⟩ + random_in_unit_sphere 0 0 0 * (0 : ℝ) =
      ⟨0, 0, 2⟩ ∧
    (⟨0, 0, 1⟩ : Vec3) ≠ ⟨0, 0, 2⟩ := by
  refine ⟨?_, ?_, ?_⟩
  · norm_num [Material.scatter, Vec3.unit, Vec3.mag, Vec3.mag_sq, Vec3.dot,
      Vec3.reflect, sample_zero_draws, Vec3.ZERO, Vec3.ONE, sqrt_four, Vec3.eq_iff_components,
      Ray.eq_iff_fields]
  · norm_num [Vec3.reflect, sample_zero_draws, Vec3.ZERO, Vec3.dot, Vec3.eq_iff_components]
  · simp [Vec3.eq_iff_components]

/-- Claim C5: `Dielectric::scatter` always yields a scattered outcome whose
attenuation is the identity color `(1,1,1)`; and when Snell refraction is
geometrically impossible (the refraction discriminant is not positive, so
`refract` returns `None`), the reflect probability is 1, hence every random
draw `q < 1` (every value `rand::random` can produce) yields the mirror
reflection of the incoming direction. -/
theorem C5_dielectric (ref_idx : ℝ) (r_in : Ray) (rec : Hit) (d : Draws) :
    (∃ s, Material.scatter (.dielectric ref_idx) r_in rec d = some s ∧
      s.attenuation = Vec3.ID) ∧
    (Dielectric.refract r_in.direction (dielectricParams ref_idx r_in rec).1
        (dielectricParams ref_idx r_in rec).2.1 = none →
      d.q < 1 →
      Material.scatter (.dielectric ref_idx) r_in rec d =
        some ⟨Ray.mk rec.point (Vec3.reflect r_in.direction rec.normal), Vec3.ID⟩) := by
  constructor
  · exact ⟨_, rfl, rfl⟩
  · intro hnone hq
    simp [Material.scatter, hnone, hq]

/-- Claim C5 witness: a concrete total-internal-reflection instance:
direction `(4,0,3)` exiting a dielectric of index 2 at normal `(0,0,1)`;
refraction is impossible and the draw `q = 0 < 1` mirror-reflects to
`(4,0,-3)`. -/
theorem C5_witness :
    Dielectric.refract (Vec3.mk 4 0 3)
        (dielectricParams 2 (Ray.mk Vec3.ZERO ⟨4, 0, 3⟩)
          ⟨1, Vec3.ZERO, ⟨0, 0, 1⟩, .dielectric 2⟩).1
        (dielectricParams 2 (Ray.mk Vec3.ZERO ⟨4, 0, 3⟩)
          ⟨1, Vec3.ZERO, ⟨0, 0, 1⟩, .dielectric 2⟩).2.1 = none ∧
    (0 : ℝ) < 1 ∧
    Material.scatter (.dielectric 2) (Ray.mk Vec3.ZERO ⟨4, 0, 3⟩)
        ⟨1, Vec3.ZERO, ⟨0, 0, 1⟩, .dielectric 2⟩ ⟨0, 0, 0, 0⟩ =
      some ⟨Ray.mk Vec3.ZERO
        (Vec3.reflect (Vec3.mk 4 0 3) (Vec3.mk 0 0 1)), Vec3.ID⟩ := by
  have hr : Dielectric.refract (Vec3.mk 4 0 3)
      (dielectricParams 2 (Ray.mk Vec3.ZERO ⟨4, 0, 3⟩)
        ⟨1, Vec3.ZERO, ⟨0, 0, 1⟩, .dielectric 2⟩).1
      (dielectricParams 2 (Ray.mk Vec3.ZERO ⟨4, 0, 3⟩)
        ⟨1, Vec3.ZERO, ⟨0, 0, 1⟩, .dielectric 2⟩).2.1 = none := by
    norm_num [Dielectric.refract, dielectricParams, Vec3.unit, Vec3.mag, Vec3.mag_sq,
      Vec3.dot, Vec3.ZERO, sqrt_twentyfive]
  refine ⟨hr, by norm_num, ?_⟩
  exact (C5_dielectric 2 (Ray.mk Vec3.ZERO ⟨4, 0, 3⟩)
    ⟨1, Vec3.ZERO, ⟨0, 0, 1⟩, .dielectric 2⟩ ⟨0, 0, 0, 0⟩).2 hr
    (by show (0 : ℝ) < 1; norm_num)

/- ## Named subexpressions of `Sphere::hit` (`oc`, `a`, `b`, `c`,
`discriminant`, the two roots, and the returned record), used to state and
prove facts about the intersection routine. -/

/-- Mirrors `oc = ray.origin - self.center` in `Sphere::hit`. -/
def sphOC (center : Vec3) (ray : Ray) : Vec3 := ray.origin - center

/-- Mirrors `a = ray.direction.dot(ray.direction)` in `Sphere::hit`. -/
def sphA (ray : Ray) : ℝ := ray.direction.dot ray.direction

/-- Mirrors `b = oc.dot(ray.direction)` in `Sphere::hit`. -/
def sphB (center : Vec3) (ray : Ray) : ℝ := (sphOC center ray).dot ray.direction

/-- Mirrors `c = oc.dot(oc) - radius * radius` in `Sphere::hit`. -/
def sphC (center : Vec3) (radius : ℝ) (ray : Ray) : ℝ :=
  (sphOC center ray).dot (sphOC center ray) - radius * radius

/-- Mirrors `discriminant = b * b - a * c` in `Sphere::hit`. -/
def sphDisc (center : Vec3) (radius : ℝ) (ray : Ray) : ℝ :=
  sphB center ray * sphB center ray - sphA ray * sphC center radius ray

/-- The smaller root `(-b - sqrt(discriminant)) / a` in `Sphere::hit`. -/
def sphT1 (center : Vec3) (radius : ℝ) (ray : Ray) : ℝ :=
  (-sphB center ray - Real.sqrt (sphDisc center radius ray)) / sphA ray

/-- The larger root `(-b + sqrt(discriminant)) / a` in `Sphere::hit`. -/
def sphT2 (center : Vec3) (radius : ℝ) (ray : Ray) : ℝ :=
  (-sphB center ray + Real.sqrt (sphDisc center radius ray)) / sphA ray

/-- The `Hit` record `Sphere::hit` builds for an accepted parameter `t`. -/
def sphRec (center : Vec3) (radius : ℝ) (material : Material) (ray : Ray) (t : ℝ) : Hit :=
  ⟨t, ray.point_at_parameter t, (ray.point_at_parameter t - center) / radius, material⟩

@[simp] theorem sphRec_parameter (center : Vec3) (radius : ℝ) (material : Material)
    (ray : Ray) (t : ℝ) : (sphRec center radius material ray t).parameter = t := rfl

@[simp] theorem sphRec_point (center : Vec3) (radius : ℝ) (material : Material)
    (ray : Ray) (t : ℝ) :
    (sphRec center radius material ray t).point = ray.point_at_parameter t := rfl

theorem sphereHit_eq_ite (center : Vec3) (radius : ℝ) (material : Material)
    (ray : Ray) (t_min t_max : ℝ) :
    sphereHit center radius material ray t_min t_max =
      (if 0 < sphDisc center radius ray then
        (if t_min < sphT1 center radius ray ∧ sphT1 center radius ray < t_max then
          some (sphRec center radius material ray (sphT1 center radius ray))
        else if t_min < sphT2 center radius ray ∧ sphT2 center radius ray < t_max then
          some (sphRec center radius material ray (sphT2 center radius ray))
        else none)
      else none) := rfl

theorem sphT1_le_sphT2 (center : Vec3) (radius : ℝ) (ray : Ray) :
    sphT1 center radius ray ≤ sphT2 center radius ray := by
  have hs := Real.sqrt_nonneg (sphDisc center radius ray)
  unfold sphT1 sphT2 sphA
  rcases (Vec3.dot_self_nonneg ray.direction).eq_or_lt with h | h
  · rw [← h]
    simp
  · rw [div_le_div_iff₀ h h]
    nlinarith [hs]

theorem sphereHit_range {center : Vec3} {radius : ℝ} {material : Material}
    {ray : Ray} {t_min t_max : ℝ} {h : Hit} :
    sphereHit center radius material ray t_min t_max = some h →
      t_min < h.parameter ∧ h.parameter < t_max ∧
        h.point = ray.point_at_parameter h.parameter := by
  rw [sphereHit_eq_ite]
  split_ifs with hd h1 h2 <;> intro he
  · simp only [Option.some.injEq] at he
    subst he
    exact ⟨h1.1, h1.2, rfl⟩
  · simp only [Option.some.injEq] at he
    subst he
    exact ⟨h2.1, h2.2, rfl⟩
  · exact absurd he (by simp)
  · exact absurd he (by simp)

theorem sphereHit_narrow {center : Vec3} {radius : ℝ} {material : Material}
    {ray : Ray} {t_min : ℝ} {c C : ℝ} (hcC : c ≤ C) (h : Hit) :
    sphereHit center radius material ray t_min c = some h ↔
      sphereHit center radius material ray t_min C = some h ∧ h.parameter < c := by
  have h12 := sphT1_le_sphT2 center radius ray
  rw [sphereHit_eq_ite, sphereHit_eq_ite]
  set t1 := sphT1 center radius ray with ht1
  set t2 := sphT2 center radius ray with ht2
  by_cases hd : 0 < sphDisc center radius ray
  · rw [if_pos hd, if_pos hd]
    by_cases h1c : t_min < t1 ∧ t1 < c
    · rw [if_pos h1c, if_pos ⟨h1c.1, lt_of_lt_of_le h1c.2 hcC⟩]
      constructor
      · intro he
        simp only [Option.some.injEq] at he
        subst he
        exact ⟨rfl, h1c.2⟩
      · rintro ⟨he, -⟩
        exact he
    · rw [if_neg h1c]
      by_cases h2c : t_min < t2 ∧ t2 < c
      · have hnt1 : ¬ t_min < t1 := fun hx => h1c ⟨hx, lt_of_le_of_lt h12 h2c.2⟩
        rw [if_pos h2c, if_neg (fun hx : t_min < t1 ∧ t1 < C => hnt1 hx.1),
          if_pos ⟨h2c.1, lt_of_lt_of_le h2c.2 hcC⟩]
        constructor
        · intro he
          simp only [Option.some.injEq] at he
          subst he
          exact ⟨rfl, h2c.2⟩
        · rintro ⟨he, -⟩
          exact he
      · rw [if_neg h2c]
        constructor
        · intro he
          exact absurd he (by simp)
        · rintro ⟨he, hlt⟩
          by_cases hC1 : t_min < t1 ∧ t1 < C
          · rw [if_pos hC1] at he
            simp only [Option.some.injEq] at he
            subst he
            simp only [sphRec_parameter] at hlt
            exact absurd ⟨hC1.1, hlt⟩ h1c
          · rw [if_neg hC1] at he
            by_cases hC2 : t_min < t2 ∧ t2 < C
            · rw [if_pos hC2] at he
              simp only [Option.some.injEq] at he
              subst he
              simp only [sphRec_parameter] at hlt
              exact absurd ⟨hC2.1, hlt⟩ h2c
            · rw [if_neg hC2] at he
              exact absurd he (by simp)
  · rw [if_neg hd, if_neg hd]
    constructor
    · intro he
      exact absurd he (by simp)
    · rintro ⟨he, -⟩
      exact absurd he (by simp)

mutual

/-- Any hit returned by `Model::hit` has its parameter strictly inside the
query range and its point on the ray. -/
theorem hit_range : ∀ (m : Model) (ray : Ray) (t_min t_max : ℝ) (h : Hit),
    Model.hit m ray t_min t_max = some h →
      t_min < h.parameter ∧ h.parameter < t_max ∧
        h.point = ray.point_at_parameter h.parameter
  | .sphere center radius material, ray, t_min, t_max, h => by
    intro he
    simp only [Model.hit] at he
    exact sphereHit_range he
  | .list l, ray, t_min, t_max, h => by
    intro he
    simp only [Model.hit] at he
    rcases loop_range l ray t_min t_max none h he with hacc | hstrict
    · exact absurd hacc (by simp)
    · exact hstrict

/-- The loop of the `List` arm: a returned hit is either the accumulator
unchanged, or lies strictly inside `(t_min, closest)`. -/
theorem loop_range : ∀ (l : List Model) (ray : Ray) (t_min closest : ℝ)
    (acc : Option Hit) (h : Hit),
    hitLoop l ray t_min closest acc = some h →
      acc = some h ∨
        (t_min < h.parameter ∧ h.parameter < closest ∧
          h.point = ray.point_at_parameter h.parameter)
  | [], ray, t_min, closest, acc, h => by
    intro he
    simp only [hitLoop] at he
    exact Or.inl he
  | m :: rest, ray, t_min, closest, acc, h => by
    intro he
    simp only [hitLoop] at he
    cases hm : Model.hit m ray t_min closest with
    | some h' =>
      rw [hm] at he
      obtain ⟨hr1, hr2, hr3⟩ := hit_range m ray t_min closest h' hm
      rcases loop_range rest ray t_min h'.parameter (some h') h he with hacc | hstrict
      · simp only [Option.some.injEq] at hacc
        subst hacc
        exact Or.inr ⟨hr1, hr2, hr3⟩
      · exact Or.inr ⟨hstrict.1, lt_trans hstrict.2.1 hr2, hstrict.2.2⟩
    | none =>
      rw [hm] at he
      exact loop_range rest ray t_min closest acc h he

end

mutual

/-- Narrowing coherence of `Model::hit`: for `c ≤ C`, a hit in the range
`(t_min, c)` is exactly a hit in `(t_min, C)` whose parameter is below
`c`.  This is what makes the `closest_so_far` narrowing of the list loop
equivalent to a minimum over full-range hits. -/
theorem hit_narrow : ∀ (m : Model) (ray : Ray) (t_min c C : ℝ), c ≤ C → ∀ h : Hit,
    (Model.hit m ray t_min c = some h ↔
      Model.hit m ray t_min C = some h ∧ h.parameter < c)
  | .sphere center radius material, ray, t_min, c, C, hcC, h => by
    simp only [Model.hit]
    exact sphereHit_narrow hcC h
  | .list l, ray, t_min, c, C, hcC, h => by
    simp only [Model.hit]
    exact loop_narrow l ray t_min c c C none none
      (Or.inr ⟨rfl, rfl, hcC, by simp⟩) h

/-- The two-run relation for the list loop under narrowing: if the two
runs are either synchronized (with any accumulated hit below `c`) or the
narrow run still has no record while the record of the wide run is at or above
`c`, then the result of the narrow run is exactly the result of the wide run when
that result lies below `c`. -/
theorem loop_narrow : ∀ (l : List Model) (ray : Ray) (t_min c cl1 cl2 : ℝ)
    (acc1 acc2 : Option Hit),
    ((cl1 = cl2 ∧ acc1 = acc2 ∧ cl1 ≤ c ∧ (∀ h0, acc1 = some h0 → h0.parameter < c)) ∨
      (acc1 = none ∧ cl1 = c ∧ c ≤ cl2 ∧ (∀ h0, acc2 = some h0 → c ≤ h0.parameter))) →
    ∀ h : Hit,
      (hitLoop l ray t_min cl1 acc1 = some h ↔
        hitLoop l ray t_min cl2 acc2 = some h ∧ h.parameter < c)
  | [], ray, t_min, c, cl1, cl2, acc1, acc2 => by
    rintro (⟨-, rfl, -, hinv⟩ | ⟨rfl, -, -, hinv⟩) h
    · simp only [hitLoop]
      exact ⟨fun he => ⟨he, hinv h he⟩, fun he => he.1⟩
    · simp only [hitLoop]
      constructor
      · intro he
        exact absurd he (by simp)
      · rintro ⟨he, hlt⟩
        exact absurd hlt (not_lt.mpr (hinv h he))
  | m :: rest, ray, t_min, c, cl1, cl2, acc1, acc2 => by
    rintro (⟨h12, hacc, hle, hinv⟩ | ⟨hnone, hc1, hcC, hinv⟩) h
    · -- synchronized state: both runs query the same child range
      subst h12
      subst hacc
      simp only [hitLoop]
      cases hm : Model.hit m ray t_min cl1 with
      | some h' =>
        have hr := hit_range m ray t_min cl1 h' hm
        exact loop_narrow rest ray t_min c h'.parameter h'.parameter
          (some h') (some h')
          (Or.inl ⟨rfl, rfl, le_of_lt (lt_of_lt_of_le hr.2.1 hle),
            fun h0 he0 => by
              simp only [Option.some.injEq] at he0
              subst he0
              exact lt_of_lt_of_le hr.2.1 hle⟩) h
      | none =>
        exact loop_narrow rest ray t_min c cl1 cl1 acc1 acc1
          (Or.inl ⟨rfl, rfl, hle, hinv⟩) h
    · -- narrow run still empty, record of the wide run at or above cl1
      subst hnone
      subst hc1
      simp only [hitLoop]
      cases hm1 : Model.hit m ray t_min cl1 with
      | some h1 =>
        have hwide : Model.hit m ray t_min cl2 = some h1 ∧ h1.parameter < cl1 :=
          (hit_narrow m ray t_min cl1 cl2 hcC h1).mp hm1
        rw [hwide.1]
        exact loop_narrow rest ray t_min cl1 h1.parameter h1.parameter
          (some h1) (some h1)
          (Or.inl ⟨rfl, rfl, le_of_lt hwide.2,
            fun h0 he0 => by
              simp only [Option.some.injEq] at he0
              subst he0
              exact hwide.2⟩) h
      | none =>
        cases hm2 : Model.hit m ray t_min cl2 with
        | some h2 =>
          have hge : cl1 ≤ h2.parameter := by
            by_contra hx
            rw [not_le] at hx
            have hq := (hit_narrow m ray t_min cl1 cl2 hcC h2).mpr ⟨hm2, hx⟩
            rw [hm1] at hq
            exact absurd hq (by simp)
          exact loop_narrow rest ray t_min cl1 cl1 h2.parameter none (some h2)
            (Or.inr ⟨rfl, rfl, hge, fun h0 he0 => by
              simp only [Option.some.injEq] at he0
              subst he0
              exact hge⟩) h
        | none =>
          exact loop_narrow rest ray t_min cl1 cl1 cl2 none acc2
            (Or.inr ⟨rfl, rfl, hcC, hinv⟩) h

end

/-- If the list loop returns `none` the accumulator was `none`. -/
theorem loop_none_acc (ray : Ray) (t_min : ℝ) :
    ∀ (l : List Model) (closest : ℝ) (acc : Option Hit),
      hitLoop l ray t_min closest acc = none → acc = none := by
  intro l
  induction l with
  | nil =>
    intro closest acc he
    simpa only [hitLoop] using he
  | cons m rest ih =>
    intro closest acc he
    simp only [hitLoop] at he
    cases hm : Model.hit m ray t_min closest with
    | some h1 =>
      rw [hm] at he
      exact absurd (ih h1.parameter (some h1) he) (by simp)
    | none =>
      rw [hm] at he
      exact ih closest acc he

/-- Starting from an empty accumulator and the full range, the list loop
returns `none` exactly when no child hits in the full range. -/
theorem loop_none_iff (ray : Ray) (t_min t_max : ℝ) :
    ∀ l : List Model,
      (hitLoop l ray t_min t_max none = none ↔
        l.filterMap (fun m => Model.hit m ray t_min t_max) = []) := by
  intro l
  induction l with
  | nil => simp [hitLoop]
  | cons m rest ih =>
    simp only [hitLoop, List.filterMap_cons]
    cases hm : Model.hit m ray t_min t_max with
    | some h1 =>
      constructor
      · intro he
        exact absurd (loop_none_acc ray t_min rest h1.parameter (some h1) he) (by simp)
      · intro he
        exact absurd he (by simp)
    | none =>
      exact ih

/-- The list loop computes a minimal full-range child hit: a returned hit
is (a full-range child hit or the untouched accumulator), is no farther
than every full-range child hit, and no farther than the accumulator. -/
theorem loop_min (ray : Ray) (t_min t_max : ℝ) :
    ∀ (l : List Model) (closest : ℝ) (acc : Option Hit),
      ((acc = none ∧ closest = t_max) ∨
        (∃ h0, acc = some h0 ∧ closest = h0.parameter ∧ h0.parameter ≤ t_max)) →
      ∀ h : Hit, hitLoop l ray t_min closest acc = some h →
        (h ∈ l.filterMap (fun m => Model.hit m ray t_min t_max) ∨ acc = some h) ∧
        (∀ h' ∈ l.filterMap (fun m => Model.hit m ray t_min t_max),
          h.parameter ≤ h'.parameter) ∧
        (∀ h0, acc = some h0 → h.parameter ≤ h0.parameter) := by
  intro l
  induction l with
  | nil =>
    intro closest acc hstate h he
    simp only [hitLoop] at he
    refine ⟨Or.inr he, ?_, ?_⟩
    · intro h' hh'
      simp only [List.filterMap_nil] at hh'
      exact absurd hh' (List.not_mem_nil _)
    · intro h0 he0
      rw [he] at he0
      simp only [Option.some.injEq] at he0
      exact le_of_eq (congrArg Hit.parameter he0)
  | cons m rest ih =>
    intro closest acc hstate h he
    simp only [hitLoop] at he
    rcases hstate with ⟨hacc, hcl⟩ | ⟨h0, hacc, hcl, hb⟩
    · subst hacc
      rw [hcl] at he
      simp only [List.filterMap_cons]
      cases hm : Model.hit m ray t_min t_max with
      | some h1 =>
        rw [hm] at he
        have hr := hit_range m ray t_min t_max h1 hm
        obtain ⟨mem', min', accb'⟩ := ih h1.parameter (some h1)
          (Or.inr ⟨h1, rfl, rfl, le_of_lt hr.2.1⟩) h he
        refine ⟨?_, ?_, ?_⟩
        · rcases mem' with hmem | hacc'
          · exact Or.inl (List.mem_cons_of_mem _ hmem)
          · simp only [Option.some.injEq] at hacc'
            exact Or.inl (hacc' ▸ List.mem_cons_self _ _)
        · intro h' hh'
          rcases List.mem_cons.mp hh' with heq | hh''
          · rw [heq]
            exact accb' h1 rfl
          · exact min' h' hh''
        · intro h0 he0
          exact absurd he0 (by simp)
      | none =>
        rw [hm] at he
        simp only [hm]
        obtain ⟨mem', min', accb'⟩ := ih t_max none (Or.inl ⟨rfl, rfl⟩) h he
        refine ⟨?_, min', ?_⟩
        · rcases mem' with hmem | hacc'
          · exact Or.inl hmem
          · exact absurd hacc' (by simp)
        · intro h0 he0
          exact absurd he0 (by simp)
    · subst hacc
      subst hcl
      simp only [List.filterMap_cons]
      cases hm : Model.hit m ray t_min h0.parameter with
      | some h1 =>
        rw [hm] at he
        have hwide := (hit_narrow m ray t_min h0.parameter t_max hb h1).mp hm
        simp only [hwide.1]
        obtain ⟨mem', min', accb'⟩ := ih h1.parameter (some h1)
          (Or.inr ⟨h1, rfl, rfl, le_of_lt (lt_of_lt_of_le hwide.2 hb)⟩) h he
        refine ⟨?_, ?_, ?_⟩
        · rcases mem' with hmem | hacc'
          · exact Or.inl (List.mem_cons_of_mem _ hmem)
          · simp only [Option.some.injEq] at hacc'
            exact Or.inl (hacc' ▸ List.mem_cons_self _ _)
        · intro h' hh'
          rcases List.mem_cons.mp hh' with heq | hh''
          · rw [heq]
            exact accb' h1 rfl
          · exact min' h' hh''
        · intro h0' he0
          simp only [Option.some.injEq] at he0
          rw [← he0]
          exact le_trans (accb' h1 rfl) (le_of_lt hwide.2)
      | none =>
        rw [hm] at he
        cases hmf : Model.hit m ray t_min t_max with
        | some h2 =>
          have hge : ¬ h2.parameter < h0.parameter := by
            intro hx
            have hq := (hit_narrow m ray t_min h0.parameter t_max hb h2).mpr ⟨hmf, hx⟩
            rw [hm] at hq
            exact absurd hq (by simp)
          simp only [hmf]
          obtain ⟨mem', min', accb'⟩ := ih h0.parameter (some h0)
            (Or.inr ⟨h0, rfl, rfl, hb⟩) h he
          refine ⟨?_, ?_, accb'⟩
          · rcases mem' with hmem | hacc'
            · exact Or.inl (List.mem_cons_of_mem _ hmem)
            · exact Or.inr hacc'
          · intro h' hh'
            rcases List.mem_cons.mp hh' with heq | hh''
            · rw [heq]
              exact le_trans (accb' h0 rfl) (not_lt.mp hge)
            · exact min' h' hh''
        | none =>
          simp only [hmf]
          exact ih h0.parameter (some h0) (Or.inr ⟨h0, rfl, rfl, hb⟩) h he

/-- Test fixture: the spec §8 ray, origin `(0,0,5)`, direction `(0,0,-1)`. -/
def exRay : Ray := Ray.mk ⟨0, 0, 5⟩ ⟨0, 0, -1⟩

theorem sphDisc_ex1 : sphDisc ⟨0, 0, 0⟩ 1 exRay = 1 := by
  norm_num [sphDisc, sphB, sphA, sphC, sphOC, Vec3.dot, exRay]

theorem sphT1_ex1 : sphT1 ⟨0, 0, 0⟩ 1 exRay = 4 := by
  unfold sphT1
  rw [sphDisc_ex1, Real.sqrt_one]
  norm_num [sphB, sphA, sphOC, Vec3.dot, exRay]

/-- The unit sphere at the origin against `exRay`: hit at `t = 4`, point
`(0,0,1)`, outward normal `(0,0,1)`. -/
theorem sphereHit_ex1 (material : Material) (t_min t_max : ℝ) (ha : t_min < 4)
    (hb : (4 : ℝ) < t_max) :
    sphereHit ⟨0, 0, 0⟩ 1 material exRay t_min t_max =
      some ⟨4, ⟨0, 0, 1⟩, ⟨0, 0, 1⟩, material⟩ := by
  rw [sphereHit_eq_ite, sphDisc_ex1, sphT1_ex1, if_pos (by norm_num : (0 : ℝ) < 1),
    if_pos ⟨ha, hb⟩]
  norm_num [sphRec, Ray.point_at_parameter, exRay, Vec3.eq_iff_components]

theorem sphDisc_ex2 : sphDisc ⟨0, 0, 0⟩ 2 exRay = 4 := by
  norm_num [sphDisc, sphB, sphA, sphC, sphOC, Vec3.dot, exRay]

theorem sphT1_ex2 : sphT1 ⟨0, 0, 0⟩ 2 exRay = 3 := by
  unfold sphT1
  rw [sphDisc_ex2, sqrt_four]
  norm_num [sphB, sphA, sphOC, Vec3.dot, exRay]

/-- The radius-2 sphere at the origin against `exRay`: hit at `t = 3`,
point `(0,0,2)`, outward normal `(0,0,1)`. -/
theorem sphereHit_ex2 (material : Material) (t_min t_max : ℝ) (ha : t_min < 3)
    (hb : (3 : ℝ) < t_max) :
    sphereHit ⟨0, 0, 0⟩ 2 material exRay t_min t_max =
      some ⟨3, ⟨0, 0, 2⟩, ⟨0, 0, 1⟩, material⟩ := by
  rw [sphereHit_eq_ite, sphDisc_ex2, sphT1_ex2, if_pos (by norm_num : (0 : ℝ) < 4),
    if_pos ⟨ha, hb⟩]
  norm_num [sphRec, Ray.point_at_parameter, exRay, Vec3.eq_iff_components]

/-- Claim C3: `Sphere::hit` returns no hit when the discriminant is not
positive; otherwise it returns the smaller root if it lies in
`(t_min, t_max)`, else the larger root if it lies in the range, else no
hit, with normal `(point - center) / radius`; and the spec §8 example: the
ray from `(0,0,5)` toward `(0,0,-1)` hits the unit sphere at the origin at
`t = 4` with outward normal `(0,0,1)`. -/
theorem C3_sphere_hit_characterization :
    (∀ (center : Vec3) (radius : ℝ) (material : Material) (ray : Ray) (t_min t_max : ℝ),
      (sphDisc center radius ray ≤ 0 →
        sphereHit center radius material ray t_min t_max = none) ∧
      (0 < sphDisc center radius ray →
        sphereHit center radius material ray t_min t_max =
          if t_min < sphT1 center radius ray ∧ sphT1 center radius ray < t_max then
            some ⟨sphT1 center radius ray,
              ray.point_at_parameter (sphT1 center radius ray),
              (ray.point_at_parameter (sphT1 center radius ray) - center) / radius,
              material⟩
          else if t_min < sphT2 center radius ray ∧ sphT2 center radius ray < t_max then
            some ⟨sphT2 center radius ray,
              ray.point_at_parameter (sphT2 center radius ray),
              (ray.point_at_parameter (sphT2 center radius ray) - center) / radius,
              material⟩
          else none)) ∧
    sphereHit ⟨0, 0, 0⟩ 1 (.lambertian Vec3.ZERO) exRay 0 1000 =
      some ⟨4, ⟨0, 0, 1⟩, ⟨0, 0, 1⟩, .lambertian Vec3.ZERO⟩ := by
  constructor
  · intro center radius material ray t_min t_max
    constructor
    · intro hd
      rw [sphereHit_eq_ite, if_neg (not_lt.mpr hd)]
    · intro hd
      rw [sphereHit_eq_ite, if_pos hd]
      rfl
  · exact sphereHit_ex1 _ 0 1000 (by norm_num) (by norm_num)

/-- Claim C3 witness: a concrete missing ray — from `(0,0,5)` along
`(0,1,0)` the discriminant against the unit sphere is `-24 ≤ 0`, and the
characterization yields no hit. -/
theorem C3_witness :
    sphDisc ⟨0, 0, 0⟩ 1 (Ray.mk ⟨0, 0, 5⟩ ⟨0, 1, 0⟩) ≤ 0 ∧
      sphereHit ⟨0, 0, 0⟩ 1 (.lambertian Vec3.ZERO) (Ray.mk ⟨0, 0, 5⟩ ⟨0, 1, 0⟩)
        0 1000 = none := by
  have hd : sphDisc ⟨0, 0, 0⟩ 1 (Ray.mk ⟨0, 0, 5⟩ ⟨0, 1, 0⟩) ≤ 0 := by
    norm_num [sphDisc, sphB, sphA, sphC, sphOC, Vec3.dot]
  exact ⟨hd, (C3_sphere_hit_characterization.1 ⟨0, 0, 0⟩ 1 (.lambertian Vec3.ZERO)
    (Ray.mk ⟨0, 0, 5⟩ ⟨0, 1, 0⟩) 0 1000).1 hd⟩

/-- Claim C10: whenever `hit` returns a record — for a sphere or a list at
any nesting depth — the parameter of the record lies strictly between `t_min`
and `t_max` and its point is the ray evaluated at that parameter. -/
theorem C10_hit_record_invariant (m : Model) (ray : Ray) (t_min t_max : ℝ) (h : Hit)
    (he : Model.hit m ray t_min t_max = some h) :
    t_min < h.parameter ∧ h.parameter < t_max ∧
      h.point = ray.point_at_parameter h.parameter :=
  hit_range m ray t_min t_max h he

/-- Claim C10 witness: the unit-sphere hit of `exRay` at `t = 4` satisfies
the invariant with bounds `0 < 4 < 1000`. -/
theorem C10_witness :
    Model.hit (Model.sphere ⟨0, 0, 0⟩ 1 (.lambertian Vec3.ZERO)) exRay 0 1000 =
      some ⟨4, ⟨0, 0, 1⟩, ⟨0, 0, 1⟩, .lambertian Vec3.ZERO⟩ ∧
    ((0 : ℝ) < (Hit.mk 4 ⟨0, 0, 1⟩ ⟨0, 0, 1⟩ (.lambertian Vec3.ZERO)).parameter ∧
      (Hit.mk 4 ⟨0, 0, 1⟩ ⟨0, 0, 1⟩ (.lambertian Vec3.ZERO)).parameter < 1000 ∧
      (Hit.mk 4 ⟨0, 0, 1⟩ ⟨0, 0, 1⟩ (.lambertian Vec3.ZERO)).point =
        exRay.point_at_parameter
          (Hit.mk 4 ⟨0, 0, 1⟩ ⟨0, 0, 1⟩ (.lambertian Vec3.ZERO)).parameter) := by
  have he : Model.hit (Model.sphere ⟨0, 0, 0⟩ 1 (.lambertian Vec3.ZERO)) exRay 0 1000 =
      some ⟨4, ⟨0, 0, 1⟩, ⟨0, 0, 1⟩, .lambertian Vec3.ZERO⟩ := by
    simp only [Model.hit]
    exact sphereHit_ex1 _ 0 1000 (by norm_num) (by norm_num)
  exact ⟨he, C10_hit_record_invariant _ exRay 0 1000 _ he⟩

/-- Claim C4: `List` hit scans children in order narrowing `t_max` to the
closest accepted parameter, and returns a hit record that is a full-range
child hit of minimal parameter, or none exactly when no child hits; in
particular for the two overlapping spheres of radius 1 and 2 at the origin
along `exRay`, it returns the nearer record, `t = 3` on the outer sphere. -/
theorem C4_list_hit_minimal :
    (∀ (l : List Model) (ray : Ray) (t_min t_max : ℝ), t_min < t_max →
      (Model.hit (.list l) ray t_min t_max = none ↔
        l.filterMap (fun m => Model.hit m ray t_min t_max) = []) ∧
      ∀ h : Hit, Model.hit (.list l) ray t_min t_max = some h →
        h ∈ l.filterMap (fun m => Model.hit m ray t_min t_max) ∧
        ∀ h' ∈ l.filterMap (fun m => Model.hit m ray t_min t_max),
          h.parameter ≤ h'.parameter) ∧
    Model.hit (.list [Model.sphere ⟨0, 0, 0⟩ 1 (.lambertian Vec3.ZERO),
        Model.sphere ⟨0, 0, 0⟩ 2 (.metal Vec3.ONE 0)]) exRay 0 1000 =
      some ⟨3, ⟨0, 0, 2⟩, ⟨0, 0, 1⟩, .metal Vec3.ONE 0⟩ := by
  constructor
  · intro l ray t_min t_max hlt
    constructor
    · simp only [Model.hit]
      exact loop_none_iff ray t_min t_max l
    · intro h he
      simp only [Model.hit] at he
      obtain ⟨mem, minim, -⟩ :=
        loop_min ray t_min t_max l t_max none (Or.inl ⟨rfl, rfl⟩) h he
      rcases mem with hmem | habs
      · exact ⟨hmem, minim⟩
      · exact absurd habs (by simp)
  · simp only [Model.hit, hitLoop,
      sphereHit_ex1 (.lambertian Vec3.ZERO) 0 1000 (by norm_num) (by norm_num)]
    rw [sphereHit_ex2 (.metal Vec3.ONE 0) 0 4 (by norm_num) (by norm_num)]

/-- Claim C4 witness: the general statement applied at the bounds
`0 < 1000` with the empty child list. -/
theorem C4_witness :
    (0 : ℝ) < 1000 ∧
      ((Model.hit (.list []) exRay 0 1000 = none ↔
        List.filterMap (fun m => Model.hit m exRay 0 1000) [] = []) ∧
      ∀ h : Hit, Model.hit (.list []) exRay 0 1000 = some h →
        h ∈ List.filterMap (fun m => Model.hit m exRay 0 1000) [] ∧
        ∀ h' ∈ List.filterMap (fun m => Model.hit m exRay 0 1000) [],
          h.parameter ≤ h'.parameter) :=
  ⟨by norm_num, C4_list_hit_minimal.1 [] exRay 0 1000 (by norm_num)⟩

/-- The integrator performs at most `(max_bounce - bounces) + 1` scene
intersection tests from any loop state. -/
theorem colorLoop_count (world : Model) (draws : ℤ → Draws) (max_bounce : ℤ)
    (ray : Ray) (factor emit : Vec3) (bounces : ℤ) :
    (colorLoop world draws max_bounce ray factor emit bounces).2 ≤
      (max_bounce - bounces).toNat + 1 := by
  rw [colorLoop]
  split
  · simp
  · next rec heq1 =>
    split
    · simp
    · next hb =>
      split
      · simp
      · next s heq2 =>
        split
        · simp
        · next hz =>
          simp only []
          have ih := colorLoop_count world draws max_bounce s.scattered
            (factor * s.attenuation) (emit + rec.material.emit rec) (bounces + 1)
          omega
termination_by (max_bounce - bounces).toNat
decreasing_by omega

/-- Claim C2: for every scene, initial ray, `max_bounce ≥ 0` and draw
sequence, the integrator `color` terminates (it is a total function,
defined by recursion on the remaining bounce budget) and its loop performs
at most `max_bounce + 1` scene intersection tests. -/
theorem C2_intersection_bound (world : Model) (draws : ℤ → Draws) (max_bounce : ℤ)
    (ray : Ray) (hmb : 0 ≤ max_bounce) :
    color ray world max_bounce draws =
      (colorLoop world draws max_bounce ray Vec3.ONE Vec3.ZERO 0).1 ∧
    (colorLoop world draws max_bounce ray Vec3.ONE Vec3.ZERO 0).2 ≤
      max_bounce.toNat + 1 := by
  refine ⟨rfl, ?_⟩
  have hc := colorLoop_count world draws max_bounce ray Vec3.ONE Vec3.ZERO 0
  omega

/-- Claim C2 witness: the bound instantiated at `max_bounce = 0` on the
empty scene, where exactly one intersection test happens. -/
theorem C2_witness :
    (0 : ℤ) ≤ 0 ∧
      (color exRay (Model.list []) 0 (fun _ => ⟨0, 0, 0, 0⟩) =
        (colorLoop (Model.list []) (fun _ => ⟨0, 0, 0, 0⟩) 0 exRay
          Vec3.ONE Vec3.ZERO 0).1 ∧
      (colorLoop (Model.list []) (fun _ => ⟨0, 0, 0, 0⟩) 0 exRay
          Vec3.ONE Vec3.ZERO 0).2 ≤ (0 : ℤ).toNat + 1) :=
  ⟨le_refl 0, C2_intersection_bound (Model.list []) (fun _ => ⟨0, 0, 0, 0⟩) 0 exRay le_rfl⟩

/-- On a missing ray the loop returns `factor * (sky + emit)` with the sky
configured to zero. -/
theorem colorLoop_miss (world : Model) (draws : ℤ → Draws) (max_bounce : ℤ)
    (ray : Ray) (factor emit : Vec3) (bounces : ℤ)
    (hmiss : Model.hit world ray EPS F32_MAX = none) :
    (colorLoop world draws max_bounce ray factor emit bounces).1 =
      factor * (Vec3.ZERO + emit) := by
  rw [colorLoop, hmiss]

/-- Claim C1 (amended): whenever the current ray has no intersection with
the scene in `(EPS, F32_MAX)`, the loop terminates and returns the
throughput times the sum of the background color (configured `Vec3::ZERO`)
and the emission accumulated on earlier bounces — not the throughput times
the background alone. -/
theorem C1_amended_miss (world : Model) (draws : ℤ → Draws) (max_bounce : ℤ)
    (ray : Ray) (factor emit : Vec3) (bounces : ℤ)
    (hmiss : Model.hit world ray EPS F32_MAX = none) :
    (colorLoop world draws max_bounce ray factor emit bounces).1 =
      factor * (Vec3.ZERO + emit) :=
  colorLoop_miss world draws max_bounce ray factor emit bounces hmiss

/-- Claim C1 witness: on the empty scene every ray misses and the result
from the initial state is `ONE * (ZERO + ZERO)`. -/
theorem C1_witness :
    Model.hit (Model.list []) exRay EPS F32_MAX = none ∧
      (colorLoop (Model.list []) (fun _ => ⟨0, 0, 0, 0⟩) 50 exRay
        Vec3.ONE Vec3.ZERO 0).1 = Vec3.ONE * (Vec3.ZERO + Vec3.ZERO) := by
  have hm : Model.hit (Model.list []) exRay EPS F32_MAX = none := by
    simp [Model.hit, hitLoop]
  exact ⟨hm, C1_amended_miss (Model.list []) (fun _ => ⟨0, 0, 0, 0⟩) 50 exRay
    Vec3.ONE Vec3.ZERO 0 hm⟩

/-- One unfolding of the integrator loop in the continue case. -/
theorem colorLoop_step (world : Model) (draws : ℤ → Draws) (max_bounce : ℤ)
    (ray : Ray) (factor emit : Vec3) (bounces : ℤ) (rec : Hit) (s : Scatter)
    (hh : Model.hit world ray EPS F32_MAX = some rec)
    (hb : ¬ max_bounce ≤ bounces)
    (hs : rec.material.scatter ray rec (draws bounces) = some s)
    (hz : ¬ (s.scattered = Ray.ZERO ∨ s.attenuation = Vec3.ZERO)) :
    colorLoop world draws max_bounce ray factor emit bounces =
      ((colorLoop world draws max_bounce s.scattered (factor * s.attenuation)
        (emit + rec.material.emit rec) (bounces + 1)).1,
       (colorLoop world draws max_bounce s.scattered (factor * s.attenuation)
        (emit + rec.material.emit rec) (bounces + 1)).2 + 1) := by
  rw [colorLoop, hh]
  simp only [if_neg hb, hs, if_neg hz]

/-- Test fixture, in the style of the scene of `src/main.rs`: a unit sphere
whose material both scatters (perfect mirror metal) and emits light. -/
def exWorld : Model :=
  Model.sphere ⟨0, 0, 0⟩ 1 (.combined (.metal Vec3.ONE 0) (.diffuseLight Vec3.ONE))

/-- Test fixture: the all-zero draw stream. -/
def exDraws : ℤ → Draws := fun _ => ⟨0, 0, 0, 0⟩

theorem exWorld_hit1 :
    Model.hit exWorld exRay EPS F32_MAX =
      some ⟨4, ⟨0, 0, 1⟩, ⟨0, 0, 1⟩,
        .combined (.metal Vec3.ONE 0) (.diffuseLight Vec3.ONE)⟩ := by
  simp only [exWorld, Model.hit]
  exact sphereHit_ex1 _ EPS F32_MAX (by norm_num [EPS]) (by norm_num [F32_MAX])

theorem exWorld_scatter :
    (Material.combined (.metal Vec3.ONE 0) (.diffuseLight Vec3.ONE)).scatter exRay
        ⟨4, ⟨0, 0, 1⟩, ⟨0, 0, 1⟩, .combined (.metal Vec3.ONE 0) (.diffuseLight Vec3.ONE)⟩
        (exDraws 0) =
      some ⟨Ray.mk ⟨0, 0, 1⟩ ⟨0, 0, 1⟩, Vec3.ONE⟩ := by
  norm_num [Material.scatter, exDraws, Vec3.unit, Vec3.mag, Vec3.mag_sq, Vec3.dot,
    Vec3.reflect, sample_zero_draws, Vec3.ZERO, Vec3.ONE, Real.sqrt_one, Ray.eq_iff_fields,
    Vec3.eq_iff_components, exRay]

theorem sphDisc_ex3 : sphDisc ⟨0, 0, 0⟩ 1 (Ray.mk ⟨0, 0, 1⟩ ⟨0, 0, 1⟩) = 1 := by
  norm_num [sphDisc, sphB, sphA, sphC, sphOC, Vec3.dot]

theorem sphT1_ex3 : sphT1 ⟨0, 0, 0⟩ 1 (Ray.mk ⟨0, 0, 1⟩ ⟨0, 0, 1⟩) = -2 := by
  unfold sphT1
  rw [sphDisc_ex3, Real.sqrt_one]
  norm_num [sphB, sphA, sphOC, Vec3.dot]

theorem sphT2_ex3 : sphT2 ⟨0, 0, 0⟩ 1 (Ray.mk ⟨0, 0, 1⟩ ⟨0, 0, 1⟩) = 0 := by
  unfold sphT2
  rw [sphDisc_ex3, Real.sqrt_one]
  norm_num [sphB, sphA, sphOC, Vec3.dot]

/-- The scattered ray leaves the sphere surface outward: no further hit in
`(EPS, F32_MAX)` (the roots are `-2` and `0`, both at or below `EPS`). -/
theorem exWorld_miss2 :
    Model.hit exWorld (Ray.mk ⟨0, 0, 1⟩ ⟨0, 0, 1⟩) EPS F32_MAX = none := by
  simp only [exWorld, Model.hit]
  rw [sphereHit_eq_ite, sphDisc_ex3, sphT1_ex3, sphT2_ex3,
    if_pos (by norm_num : (0 : ℝ) < 1), if_neg, if_neg]
  · rintro ⟨hx, -⟩
    rw [EPS] at hx
    norm_num at hx
  · rintro ⟨hx, -⟩
    rw [EPS] at hx
    norm_num at hx

/-- Claim C1 counterexample: on `exWorld` the integrator reaches (from the
initial ray `exRay`, after one mirror bounce off the emitting sphere) a
state with throughput `ONE * ONE`, accumulated emission `ZERO + ONE` and a
current ray that misses the scene; there the loop returns `(1,1,1)` — the
throughput times (background + accumulated emission) — not the throughput
times the background, which is `(0,0,0)`.  The simpler state with
throughput `ONE` and accumulated emission `ONE` exhibits the same value. -/
theorem C1_counterexample :
    Model.hit exWorld (Ray.mk ⟨0, 0, 1⟩ ⟨0, 0, 1⟩) EPS F32_MAX = none ∧
    (colorLoop exWorld exDraws 50 (Ray.mk ⟨0, 0, 1⟩ ⟨0, 0, 1⟩)
      Vec3.ONE Vec3.ONE 1).1 = Vec3.ONE ∧
    (colorLoop exWorld exDraws 50 exRay Vec3.ONE Vec3.ZERO 0).1 = Vec3.ONE ∧
    Vec3.ONE ≠ Vec3.ONE * Vec3.ZERO := by
  have hmiss := exWorld_miss2
  refine ⟨hmiss, ?_, ?_, ?_⟩
  · rw [colorLoop_miss _ _ _ _ _ _ _ hmiss]
    norm_num [Vec3.eq_iff_components, Vec3.ONE, Vec3.ZERO]
  · rw [colorLoop_step exWorld exDraws 50 exRay Vec3.ONE Vec3.ZERO 0
      ⟨4, ⟨0, 0, 1⟩, ⟨0, 0, 1⟩, .combined (.metal Vec3.ONE 0) (.diffuseLight Vec3.ONE)⟩
      ⟨Ray.mk ⟨0, 0, 1⟩ ⟨0, 0, 1⟩, Vec3.ONE⟩ exWorld_hit1 (by norm_num)
      exWorld_scatter
      (by norm_num [Ray.ZERO, Vec3.ZERO, Vec3.ONE, Ray.eq_iff_fields, Vec3.eq_iff_components])]
    show (colorLoop exWorld exDraws 50 (Ray.mk ⟨0, 0, 1⟩ ⟨0, 0, 1⟩)
      (Vec3.ONE * Vec3.ONE) (Vec3.ZERO + Vec3.ONE) 1).1 = Vec3.ONE
    rw [colorLoop_miss _ _ _ _ _ _ _ hmiss]
    norm_num [Vec3.eq_iff_components, Vec3.ONE, Vec3.ZERO]
  · norm_num [Vec3.eq_iff_components, Vec3.ONE, Vec3.ZERO]
